import Mathlib

/-!
Verification of the shared-bus socket multiplexer (TL-UL socket M:1).

The repository ships only Verilator-generated declaration headers for the
`tlul_socket_m1` module (signal declarations such as the host FIFOs, the
round-robin arbiter's `winner`, `mask`, `masked_req` and `ppc_out` nets, the
grant tracker net `hgrant`, and the device-side FIFO readiness nets); the
behavioural bodies are not part of the sources.  The components are therefore
modelled from the specification: a bounded Channel FIFO, the rotating-priority
Request Arbiter, the Grant Tracker, the Response Router and the composing
Socket Multiplexer, evaluated as a synchronous step-driven state machine.
-/

namespace Azadi

/-- Modelled from the spec: error raised when popping an empty Channel FIFO
(`UnderflowError`, §7); the behavioural FIFO body
(`tlul_fifo_sync`) is absent from the sources. -/
inductive FifoError where
  | underflow
  deriving DecidableEq, Repr

/-- Modelled from the spec: the Channel FIFO (§4.1), a fixed-depth ordered
buffer with full/empty signalling; the behavioural body of `tlul_fifo_sync`
is absent from the sources (only the cell declarations
`gen_host_fifo[i].u_hostfifo` exist). -/
structure Fifo (α : Type) where
  depth : Nat
  items : List α
  deriving DecidableEq, Repr

namespace Fifo

/-- Modelled from the spec: `is_full()` (§4.1). -/
def is_full (q : Fifo α) : Bool := q.depth ≤ q.items.length

/-- Modelled from the spec: `is_empty()` (§4.1). -/
def is_empty (q : Fifo α) : Bool := q.items.isEmpty

/-- Modelled from the spec: `offer(item) -> bool` (§4.1) — accepts `item`
iff the queue is not full; returns whether accepted, no side effect on
rejection. -/
def offer (q : Fifo α) (x : α) : Bool × Fifo α :=
  if q.is_full then (false, q)
  else (true, ⟨q.depth, q.items ++ [x]⟩)

/-- Modelled from the spec: `peek() -> Option<item>` (§4.1). -/
def peek (q : Fifo α) : Option α := q.items.head?

/-- Modelled from the spec: `pop() -> item` (§4.1) — removes and returns the
head; fails with `UnderflowError` if empty. -/
def pop (q : Fifo α) : Except FifoError (α × Fifo α) :=
  match q.items with
  | [] => .error .underflow
  | x :: xs => .ok (x, ⟨q.depth, xs⟩)

end Fifo

/-! ### Request Arbiter (§4.2)

Modelled from the spec: the rotating-priority arbiter
(`gen_arb_ppc.u_reqarb`, whose nets `mask`, `masked_req`, `winner` and
`ppc_out` are declared in the sources without their driving logic). -/

/-- Index of the lowest-indexed `true` bit of a bit-vector, if any. -/
def firstTrue : List Bool → Option Nat
  | [] => none
  | b :: bs => if b then some 0 else (firstTrue bs).map (· + 1)

/-- Modelled from the spec: `masked = requests & mask` where `mask` marks
hosts at or after the current priority pointer (§4.2 step 1). -/
def maskedReq (req : List Bool) (p : Nat) : List Bool :=
  (List.range req.length).map (fun i => req.getD i false && decide (p ≤ i))

/-- Modelled from the spec: the arbiter's winner selection (§4.2 steps 1-4):
lowest set bit of `masked` when non-empty, else lowest set bit of the full
request vector, else no grant. -/
def arbWinner (req : List Bool) (p : Nat) : Option Nat :=
  match firstTrue (maskedReq req p) with
  | some i => some i
  | none => firstTrue req

/-- Modelled from the spec: one arbiter evaluation: the winner together with
the next priority pointer — advanced to one past the winner (mod N) on a
grant, unchanged otherwise (§4.2 step 5). -/
def arbStep (req : List Bool) (p : Nat) : Option Nat × Nat :=
  match arbWinner req p with
  | some w => (some w, (w + 1) % req.length)
  | none => (none, p)

/-- Predicate: `w` is the lowest-indexed set bit of the bit-vector `l`. -/
def lowestSet (l : List Bool) (w : Nat) : Prop :=
  l.getD w false = true ∧ ∀ j < w, l.getD j false = false

/-! #### Arbiter lemmas -/

theorem firstTrue_isSome_of_mem {l : List Bool} {i : Nat}
    (h : l.getD i false = true) : (firstTrue l).isSome := by
  induction l generalizing i with
  | nil => simp [List.getD] at h
  | cons b bs ih =>
    cases i with
    | zero =>
      simp [List.getD] at h
      simp [firstTrue, h]
    | succ n =>
      simp [List.getD] at h
      by_cases hb : b = true
      · simp [firstTrue, hb]
      · have hb' : b = false := by simpa using hb
        have := ih (i := n) (by simpa [List.getD] using h)
        simp [firstTrue, hb']
        cases hft : firstTrue bs with
        | none => rw [hft] at this; simp at this
        | some k => simp

theorem firstTrue_spec {l : List Bool} {i : Nat}
    (h : firstTrue l = some i) : i < l.length ∧ lowestSet l i := by
  induction l generalizing i with
  | nil => simp [firstTrue] at h
  | cons b bs ih =>
    by_cases hb : b = true
    · simp [firstTrue, hb] at h
      subst h
      refine ⟨by simp, by simp [lowestSet, List.getD, hb], ?_⟩
      intro j hj
      omega
    · have hb' : b = false := by simpa using hb
      simp [firstTrue, hb'] at h
      obtain ⟨k, hk, rfl⟩ := h
      obtain ⟨hlen, hset, hlow⟩ := ih hk
      refine ⟨by simpa using hlen, ?_, ?_⟩
      · simpa [List.getD] using hset
      · intro j hj
        cases j with
        | zero => simp [List.getD, hb']
        | succ m =>
          have : m < k := by omega
          simpa [List.getD] using hlow m this

theorem firstTrue_none {l : List Bool} (h : firstTrue l = none) :
    ∀ i, l.getD i false = false := by
  intro i
  by_contra hc
  have : l.getD i false = true := by
    cases hv : l.getD i false with
    | false => exact absurd hv hc
    | true => rfl
  have := firstTrue_isSome_of_mem this
  rw [h] at this
  simp at this

theorem firstTrue_eq_some_of {l : List Bool} {p : Nat}
    (hlen : p < l.length) (hset : l.getD p false = true)
    (hlow : ∀ j < p, l.getD j false = false) : firstTrue l = some p := by
  induction l generalizing p with
  | nil => simp at hlen
  | cons b bs ih =>
    cases p with
    | zero =>
      simp [List.getD] at hset
      simp [firstTrue, hset]
    | succ n =>
      have hb : b = false := by
        have := hlow 0 (by omega)
        simpa [List.getD] using this
      have : firstTrue bs = some n := by
        refine ih (by simpa using hlen) (by simpa [List.getD] using hset) ?_
        intro j hj
        have := hlow (j + 1) (by omega)
        simpa [List.getD] using this
      simp [firstTrue, hb, this]

theorem getD_maskedReq (req : List Bool) (p i : Nat) :
    (maskedReq req p).getD i false =
      (req.getD i false && decide (p ≤ i) && decide (i < req.length)) := by
  unfold maskedReq
  by_cases h : i < req.length
  · rw [List.getD_eq_getElem _ _ (by simpa using h)]
    simp [h]
  · rw [List.getD_eq_default _ _ (by simpa using h)]
    simp [h]

theorem getD_false_of_ge {l : List Bool} {i : Nat} (h : l.length ≤ i) :
    l.getD i false = false :=
  List.getD_eq_default _ _ h

theorem lt_length_of_getD_true {l : List Bool} {i : Nat}
    (h : l.getD i false = true) : i < l.length := by
  by_contra hc
  rw [getD_false_of_ge (by omega)] at h
  exact absurd h (by simp)

theorem maskedReq_length (req : List Bool) (p : Nat) :
    (maskedReq req p).length = req.length := by
  simp [maskedReq]

theorem arbWinner_some_lt {req : List Bool} {p w : Nat}
    (h : arbWinner req p = some w) : w < req.length := by
  unfold arbWinner at h
  cases hm : firstTrue (maskedReq req p) with
  | some i =>
    rw [hm] at h
    simp at h
    subst h
    have := (firstTrue_spec hm).1
    rwa [maskedReq_length] at this
  | none =>
    rw [hm] at h
    exact (firstTrue_spec h).1

theorem masked_some_ge {req : List Bool} {p w : Nat}
    (h : firstTrue (maskedReq req p) = some w) : p ≤ w := by
  have := (firstTrue_spec h).2.1
  rw [getD_maskedReq] at this
  simp at this
  exact this.1.2

theorem masked_none_lt {req : List Bool} {p i : Nat}
    (h : firstTrue (maskedReq req p) = none)
    (hi : req.getD i false = true) : i < p := by
  have hlen := lt_length_of_getD_true hi
  have hmi := firstTrue_none h i
  rw [getD_maskedReq, hi] at hmi
  simp [hlen] at hmi
  omega

/-! #### Claim C1: arbiter winner selection -/

/-- C1.  For every request bit-vector and priority-pointer position, with
`masked = requests & mask` (mask marking hosts at or after the pointer): if
`masked` is non-empty the winner is the lowest-indexed set bit of `masked`;
otherwise the winner is the lowest-indexed set bit of the full request
vector; and if the request vector is all-zero, no grant occurs. -/
theorem arbWinner_selection (req : List Bool) (p : Nat) :
    ((∃ i, (maskedReq req p).getD i false = true) →
        ∃ w, arbWinner req p = some w ∧ lowestSet (maskedReq req p) w) ∧
    ((∀ i, (maskedReq req p).getD i false = false) →
        (∃ i, req.getD i false = true) →
        ∃ w, arbWinner req p = some w ∧ lowestSet req w) ∧
    ((∀ i, req.getD i false = false) → arbWinner req p = none) := by
  refine ⟨?_, ?_, ?_⟩
  · rintro ⟨i, hi⟩
    have hsome := firstTrue_isSome_of_mem hi
    cases hm : firstTrue (maskedReq req p) with
    | none => rw [hm] at hsome; simp at hsome
    | some w =>
      refine ⟨w, ?_, (firstTrue_spec hm).2⟩
      unfold arbWinner
      rw [hm]
  · rintro hmask ⟨i, hi⟩
    cases hm : firstTrue (maskedReq req p) with
    | some w =>
      have := (firstTrue_spec hm).2.1
      rw [hmask w] at this
      exact absurd this (by simp)
    | none =>
      have hsome := firstTrue_isSome_of_mem hi
      cases hr : firstTrue req with
      | none => rw [hr] at hsome; simp at hsome
      | some w =>
        refine ⟨w, ?_, (firstTrue_spec hr).2⟩
        unfold arbWinner
        rw [hm, hr]
  · intro hreq
    have hmask : ∀ i, (maskedReq req p).getD i false = false := by
      intro i
      rw [getD_maskedReq, hreq i]
      simp
    cases hm : firstTrue (maskedReq req p) with
    | some w =>
      have := (firstTrue_spec hm).2.1
      rw [hmask w] at this
      exact absurd this (by simp)
    | none =>
      cases hr : firstTrue req with
      | some w =>
        have := (firstTrue_spec hr).2.1
        rw [hreq w] at this
        exact absurd this (by simp)
      | none =>
        unfold arbWinner
        rw [hm, hr]

/-- Witness for C1 at concrete inputs. -/
theorem arbWinner_selection_witness :
    (∃ w, arbWinner [false, true] 0 = some w ∧
        lowestSet (maskedReq [false, true] 0) w) ∧
    (∃ w, arbWinner [true, false] 1 = some w ∧ lowestSet [true, false] w) ∧
    arbWinner [false, false] 0 = none := by
  refine ⟨(arbWinner_selection [false, true] 0).1 ⟨1, by decide⟩,
          (arbWinner_selection [true, false] 1).2.1 ?_ ⟨0, by decide⟩,
          (arbWinner_selection [false, false] 0).2.2 ?_⟩
  · intro i
    match i with
    | 0 => decide
    | 1 => decide
    | n + 2 => exact getD_false_of_ge (by simp [maskedReq])
  · intro i
    match i with
    | 0 => decide
    | 1 => decide
    | n + 2 => exact getD_false_of_ge (by simp)

/-! #### Claim C5: pointer advance and no host wins twice in a row -/

/-- C5.  The priority pointer advances only on a successful grant; on a grant
it advances to one past the winner modulo N; and across two consecutive
granting cycles, if some other host also requests in the second cycle, the
first cycle's winner does not win the second. -/
theorem arb_ptr_advance :
    (∀ (req : List Bool) (p : Nat),
        arbWinner req p = none → (arbStep req p).2 = p) ∧
    (∀ (req : List Bool) (p w : Nat), arbWinner req p = some w →
        (arbStep req p).1 = some w ∧
          (arbStep req p).2 = (w + 1) % req.length) ∧
    (∀ (req1 req2 : List Bool) (p w1 w2 j : Nat),
        req2.length = req1.length →
        arbWinner req1 p = some w1 →
        arbWinner req2 (arbStep req1 p).2 = some w2 →
        j ≠ w1 → req2.getD j false = true → w2 ≠ w1) := by
  refine ⟨?_, ?_, ?_⟩
  · intro req p h
    unfold arbStep
    rw [h]
  · intro req p w h
    unfold arbStep
    rw [h]
    exact ⟨rfl, rfl⟩
  · intro req1 req2 p w1 w2 j hlen h1 h2 hj hreq
    have hw1 : w1 < req1.length := arbWinner_some_lt h1
    have hstep : (arbStep req1 p).2 = (w1 + 1) % req1.length := by
      unfold arbStep
      rw [h1]
    rw [hstep] at h2
    have hjlt : j < req1.length := by
      have := lt_length_of_getD_true hreq
      omega
    by_cases hc : w1 + 1 < req1.length
    · rw [Nat.mod_eq_of_lt hc] at h2
      unfold arbWinner at h2
      cases hm : firstTrue (maskedReq req2 (w1 + 1)) with
      | some i =>
        rw [hm] at h2
        simp at h2
        subst h2
        have := masked_some_ge hm
        omega
      | none =>
        rw [hm] at h2
        have hjw : j < w1 + 1 := masked_none_lt hm hreq
        have hlow := (firstTrue_spec h2).2.2
        intro heq
        subst heq
        have : req2.getD j false = false := hlow j (by omega)
        rw [hreq] at this
        exact absurd this (by simp)
    · have hN : w1 + 1 = req1.length := by omega
      have hp0 : (w1 + 1) % req1.length = 0 := by
        rw [hN, Nat.mod_self]
      rw [hp0] at h2
      have hmj : (maskedReq req2 0).getD j false = true := by
        rw [getD_maskedReq, hreq]
        simp
        omega
      unfold arbWinner at h2
      cases hm : firstTrue (maskedReq req2 0) with
      | none =>
        have := firstTrue_none hm j
        rw [hmj] at this
        exact absurd this (by simp)
      | some i =>
        rw [hm] at h2
        simp at h2
        have hlow := (firstTrue_spec hm).2.2
        intro heq
        have hjw : j < i := by omega
        have := hlow j hjw
        rw [hmj] at this
        exact absurd this (by simp)

/-- Witness for C5 at concrete inputs. -/
theorem arb_ptr_advance_witness :
    (arbStep [false, false] 0).2 = 0 ∧
    ((arbStep [true, true] 0).1 = some 0 ∧
      (arbStep [true, true] 0).2 = (0 + 1) % 2) ∧
    (1 : Nat) ≠ 0 :=
  ⟨arb_ptr_advance.1 [false, false] 0 (by decide),
   arb_ptr_advance.2.1 [true, true] 0 0 (by decide),
   arb_ptr_advance.2.2 [true, true] [true, true] 0 0 1 1 rfl (by decide)
     (by decide) (by decide) (by decide)⟩

/-! #### Claim C6: round-robin fairness window -/

/-- The all-ones request vector: every host requests continuously. -/
def allReq (N : Nat) : List Bool := List.replicate N true

/-- Priority-pointer sequence under continuous requests from every host:
the pointer after `k` arbitration cycles starting from `p0`. -/
def rrPtr (N p0 : Nat) : Nat → Nat
  | 0 => p0
  | k + 1 => (arbStep (allReq N) (rrPtr N p0 k)).2

theorem arbStep_grant {req : List Bool} {p w : Nat}
    (h : arbWinner req p = some w) :
    arbStep req p = (some w, (w + 1) % req.length) := by
  unfold arbStep
  rw [h]

theorem getD_allReq (N i : Nat) :
    (allReq N).getD i false = decide (i < N) := by
  unfold allReq
  by_cases h : i < N
  · rw [List.getD_eq_getElem _ _ (by simpa using h)]
    simp [h]
  · rw [List.getD_eq_default _ _ (by simpa using h)]
    simp [h]

theorem arbWinner_allReq {N p : Nat} (hp : p < N) :
    arbWinner (allReq N) p = some p := by
  have hmask : firstTrue (maskedReq (allReq N) p) = some p := by
    apply firstTrue_eq_some_of
    · rw [maskedReq_length]
      simpa [allReq] using hp
    · rw [getD_maskedReq, getD_allReq]
      simp [allReq, hp]
    · intro j hj
      rw [getD_maskedReq]
      simp
      omega
  unfold arbWinner
  rw [hmask]

theorem rrPtr_eq {N p0 : Nat} (hN : 1 ≤ N) (hp : p0 < N) (k : Nat) :
    rrPtr N p0 k = (p0 + k) % N := by
  induction k with
  | zero => simp [rrPtr, Nat.mod_eq_of_lt hp]
  | succ k ih =>
    have hlt : (p0 + k) % N < N := Nat.mod_lt _ (by omega)
    have hlen : (allReq N).length = N := by simp [allReq]
    calc rrPtr N p0 (k + 1) = (arbStep (allReq N) (rrPtr N p0 k)).2 := rfl
      _ = ((p0 + k) % N + 1) % N := by
          rw [ih, arbStep_grant (arbWinner_allReq hlt), hlen]
      _ = ((p0 + k) + 1) % N := by
          rw [Nat.add_mod ((p0 + k) % N) 1 N,
            Nat.mod_mod_of_dvd _ dvd_rfl, ← Nat.add_mod]
      _ = (p0 + (k + 1)) % N := by rw [Nat.add_assoc]

theorem window_hit {N h : Nat} (hN : 1 ≤ N) (hh : h < N) (m : Nat) :
    ∃ j, j < N ∧ (m + j) % N = h := by
  have hr : m % N < N := Nat.mod_lt _ (by omega)
  by_cases hc : m % N ≤ h
  · refine ⟨h - m % N, by omega, ?_⟩
    rw [Nat.add_mod, Nat.mod_eq_of_lt (show h - m % N < N by omega)]
    have : m % N + (h - m % N) = h := by omega
    rw [this, Nat.mod_eq_of_lt hh]
  · refine ⟨h + N - m % N, by omega, ?_⟩
    rw [Nat.add_mod, Nat.mod_eq_of_lt (show h + N - m % N < N by omega)]
    have : m % N + (h + N - m % N) = h + N := by omega
    rw [this, Nat.add_mod_right, Nat.mod_eq_of_lt hh]

/-- C6.  Under continuous requests from all hosts 0..N-1, every arbitration
cycle produces a successful grant, and within every window of N consecutive
grants each host wins at least once. -/
theorem rr_fairness (N p0 : Nat) (hN : 1 ≤ N) (hp : p0 < N) :
    (∀ k, (arbStep (allReq N) (rrPtr N p0 k)).1 =
        some ((p0 + k) % N)) ∧
    (∀ k h, h < N →
        ∃ j, j < N ∧ (arbStep (allReq N) (rrPtr N p0 (k + j))).1 = some h) := by
  have hwin : ∀ k, (arbStep (allReq N) (rrPtr N p0 k)).1 = some ((p0 + k) % N) := by
    intro k
    have hlt : (p0 + k) % N < N := Nat.mod_lt _ (by omega)
    unfold arbStep
    rw [rrPtr_eq hN hp, arbWinner_allReq hlt]
  refine ⟨hwin, ?_⟩
  intro k h hh
  obtain ⟨j, hj, hjh⟩ := window_hit hN hh (p0 + k)
  refine ⟨j, hj, ?_⟩
  rw [hwin (k + j)]
  rw [← Nat.add_assoc]
  rw [hjh]

/-- Witness for C6 at concrete inputs. -/
theorem rr_fairness_witness :
    (arbStep (allReq 2) (rrPtr 2 1 3)).1 = some ((1 + 3) % 2) ∧
    ∃ j, j < 2 ∧ (arbStep (allReq 2) (rrPtr 2 1 (3 + j))).1 = some 0 :=
  ⟨(rr_fairness 2 1 (by decide) (by decide)).1 3,
   (rr_fairness 2 1 (by decide) (by decide)).2 3 0 (by decide)⟩

/-! #### Claim C8: Channel FIFO offer contract -/

/-- C8.  `offer(item)` accepts iff the queue is not full, returns whether it
accepted, and on rejection has no side effect: offering to a full queue is a
no-op returning false that never drops or overwrites the current contents;
on acceptance the item is appended behind the preserved contents. -/
theorem fifo_offer_contract {α : Type} (q : Fifo α) (x : α) :
    ((Fifo.offer q x).1 = true ↔ q.is_full = false) ∧
    ((Fifo.offer q x).1 = false → (Fifo.offer q x).2 = q) ∧
    ((Fifo.offer q x).1 = true →
        (Fifo.offer q x).2.depth = q.depth ∧
        (Fifo.offer q x).2.items = q.items ++ [x]) := by
  unfold Fifo.offer
  by_cases h : q.is_full
  · simp [h]
  · simp [h]

/-- Witness for C8 at concrete inputs. -/
theorem fifo_offer_contract_witness :
    (Fifo.offer (⟨1, [5]⟩ : Fifo Nat) 7).2 = ⟨1, [5]⟩ ∧
    ((Fifo.offer (⟨2, [5]⟩ : Fifo Nat) 7).2.depth = 2 ∧
      (Fifo.offer (⟨2, [5]⟩ : Fifo Nat) 7).2.items = [5] ++ [7]) :=
  ⟨(fifo_offer_contract (⟨1, [5]⟩ : Fifo Nat) 7).2.1 (by decide),
   (fifo_offer_contract (⟨2, [5]⟩ : Fifo Nat) 7).2.2 (by decide)⟩

/-! #### Claim C9: Channel FIFO pop contract -/

/-- C9.  `pop()` removes and returns the head when the queue is non-empty,
and fails with `UnderflowError` exactly when the queue is empty; when the
caller has checked non-emptiness first, the underflow branch is
unreachable. -/
theorem fifo_pop_contract {α : Type} (q : Fifo α) :
    (Fifo.pop q = Except.error FifoError.underflow ↔ q.is_empty = true) ∧
    (∀ x xs, q.items = x :: xs →
        Fifo.pop q = Except.ok (x, ⟨q.depth, xs⟩)) ∧
    (q.is_empty = false → ∀ e, Fifo.pop q ≠ Except.error e) := by
  obtain ⟨d, items⟩ := q
  cases items with
  | nil => simp [Fifo.pop, Fifo.is_empty]
  | cons y ys =>
    refine ⟨by simp [Fifo.pop, Fifo.is_empty], ?_, ?_⟩
    · intro x xs hx
      simp at hx
      simp [Fifo.pop, hx.1, hx.2]
    · intro _ e
      simp [Fifo.pop]

/-- Witness for C9 at concrete inputs. -/
theorem fifo_pop_contract_witness :
    Fifo.pop (⟨3, [4, 5]⟩ : Fifo Nat) = Except.ok (4, ⟨3, [5]⟩) ∧
    Fifo.pop (⟨3, [4, 5]⟩ : Fifo Nat) ≠ Except.error FifoError.underflow :=
  ⟨(fifo_pop_contract (⟨3, [4, 5]⟩ : Fifo Nat)).2.1 4 [5] rfl,
   (fifo_pop_contract (⟨3, [4, 5]⟩ : Fifo Nat)).2.2 rfl FifoError.underflow⟩

/-! ### Socket Multiplexer (§4.3-§4.5, §5, §6)

Modelled from the spec: the composition of host ports, device port, arbiter,
grant tracker and response router; the behavioural body of `tlul_socket_m1`
is absent from the sources (only its port and net declarations exist). -/

/-- Modelled from the spec: construction parameters (§6) — number of hosts,
per-host queue depths, device queue depths and tracker depth. -/
structure Cfg where
  numHosts : Nat
  hostReqDepth : Nat
  hostRspDepth : Nat
  devReqDepth : Nat
  devRspDepth : Nat
  trackerDepth : Nat
  deriving DecidableEq, Repr

/-- Modelled from the spec: the multiplexer state (§4.5): N host-facing
request/response FIFOs, the device request/response FIFOs, the Grant
Tracker queue of host identifiers, and the arbiter's priority pointer.
`submitted`, `grants` and `delivered` are history logs (ghost state):
requests accepted from hosts, grants pushed downstream, and responses
routed back, each in order of occurrence. -/
structure MuxState (α : Type) where
  hostReq : List (Fifo α)
  hostRsp : List (Fifo α)
  devReq : Fifo α
  devRsp : Fifo α
  tracker : Fifo Nat
  ptr : Nat
  submitted : List (Nat × α)
  grants : List (Nat × α)
  delivered : List (Nat × α)
  deriving DecidableEq, Repr

/-- Modelled from the spec: multiplexer construction (§6): all entities are
created at construction with the configured depths; a `CapacityMisconfiguration`
(tracker depth ≠ device response-queue depth, §7) or an empty host set
fails fast as `none`. -/
def mkMux (α : Type) (cfg : Cfg) : Option (MuxState α) :=
  if 1 ≤ cfg.numHosts ∧ cfg.trackerDepth = cfg.devRspDepth then
    some
      { hostReq := List.replicate cfg.numHosts ⟨cfg.hostReqDepth, []⟩
        hostRsp := List.replicate cfg.numHosts ⟨cfg.hostRspDepth, []⟩
        devReq := ⟨cfg.devReqDepth, []⟩
        devRsp := ⟨cfg.devRspDepth, []⟩
        tracker := ⟨cfg.trackerDepth, []⟩
        ptr := 0
        submitted := []
        grants := []
        delivered := [] }
  else none

/-- Modelled from the spec: `submit_request(host_id, payload) -> accepted`
(§6): offers the payload to the host's local outbound queue; `false` is the
`RejectedRequest` backpressure signal (§7), with no side effect. -/
def submitReq {α : Type} (s : MuxState α) (h : Nat) (x : α) :
    Bool × MuxState α :=
  if h < s.hostReq.length then
    let q := s.hostReq.getD h ⟨0, []⟩
    let r := Fifo.offer q x
    if r.1 then
      (true, { s with hostReq := s.hostReq.set h r.2,
                      submitted := s.submitted ++ [(h, x)] })
    else (false, s)
  else (false, s)

/-- Modelled from the spec: the request bit-vector (§4.2): host `i` requests
iff its outbound queue is non-empty. -/
def reqVec {α : Type} (s : MuxState α) : List Bool :=
  s.hostReq.map (fun q => !q.is_empty)

/-- Modelled from the spec: the request side of one evaluation step
(§4.5 (a)): if the device request queue is full, or the tracker is at
capacity, all winners are suppressed (§4.2 edge case, §4.3 capacity
coupling); otherwise run the arbiter and on a grant move the winning host's
request into the device request queue, push the winner onto the tracker and
advance the priority pointer. -/
def requestSide {α : Type} (s : MuxState α) : MuxState α :=
  if s.devReq.is_full || s.tracker.is_full then s
  else
    match arbWinner (reqVec s) s.ptr with
    | none => s
    | some w =>
      let q := s.hostReq.getD w ⟨0, []⟩
      match q.items with
      | [] => s
      | p :: rest =>
        { s with
          hostReq := s.hostReq.set w ⟨q.depth, rest⟩
          devReq := ⟨s.devReq.depth, s.devReq.items ++ [p]⟩
          tracker := ⟨s.tracker.depth, s.tracker.items ++ [w]⟩
          ptr := (w + 1) % s.hostReq.length
          grants := s.grants ++ [(w, p)] }

/-- Modelled from the spec: the Response Router (§4.4): if the device
response channel and the tracker are both non-empty and the destination
host's inbound queue has room, pop both and enqueue the response there;
if the destination queue is full, stall leaving both queues untouched. -/
def responseSide {α : Type} (s : MuxState α) : MuxState α :=
  match s.devRsp.items, s.tracker.items with
  | y :: ys, h :: hs =>
    let q := s.hostRsp.getD h ⟨0, []⟩
    if q.is_full then s
    else
      { s with
        devRsp := ⟨s.devRsp.depth, ys⟩
        tracker := ⟨s.tracker.depth, hs⟩
        hostRsp := s.hostRsp.set h ⟨q.depth, q.items ++ [y]⟩
        delivered := s.delivered ++ [(h, y)] }
  | _, _ => s

/-- Modelled from the spec: the external device collaborator (§1, §6):
accepts a pending request and eventually produces exactly one response, in
acceptance order; modelled as moving the head of the device request queue
to the device response queue through a response function `f`. -/
def deviceStep {α : Type} (f : α → α) (s : MuxState α) : MuxState α :=
  match s.devReq.items with
  | [] => s
  | x :: xs =>
    if s.devRsp.is_full then s
    else
      { s with
        devReq := ⟨s.devReq.depth, xs⟩
        devRsp := ⟨s.devRsp.depth, s.devRsp.items ++ [f x]⟩ }

/-- Modelled from the spec: `try_receive_response(host_id)` (§6): pops the
head of the host's inbound response queue, if any. -/
def tryReceive {α : Type} (s : MuxState α) (h : Nat) :
    Option α × MuxState α :=
  let q := s.hostRsp.getD h ⟨0, []⟩
  match q.items with
  | [] => (none, s)
  | y :: ys => (some y, { s with hostRsp := s.hostRsp.set h ⟨q.depth, ys⟩ })

/-- Modelled from the spec: `advance()` (§6, §4.5): one evaluation cycle,
request side then response side. -/
def advance {α : Type} (s : MuxState α) : MuxState α :=
  responseSide (requestSide s)

/-- Modelled from the spec: one observable transition of the protocol
engine: a host submit, an evaluation cycle, a device action, or a host
receive (§5, §6). -/
inductive MStep {α : Type} (f : α → α) : MuxState α → MuxState α → Prop where
  | submit (h : Nat) (x : α) (s : MuxState α) : MStep f s (submitReq s h x).2
  | advance (s : MuxState α) : MStep f s (advance s)
  | device (s : MuxState α) : MStep f s (deviceStep f s)
  | receive (h : Nat) (s : MuxState α) : MStep f s (tryReceive s h).2

/-- The states of the multiplexer reachable from construction under the
transitions of `MStep`. -/
inductive Reachable {α : Type} (f : α → α) (cfg : Cfg) : MuxState α → Prop where
  | init (s₀ : MuxState α) : mkMux α cfg = some s₀ → Reachable f cfg s₀
  | step (s t : MuxState α) : Reachable f cfg s → MStep f s t →
      Reachable f cfg t

/-! ### The multiplexer invariant -/

theorem getD_replicate {β : Type} (n i : Nat) (a d : β) :
    (List.replicate n a).getD i d = if i < n then a else d := by
  by_cases h : i < n
  · rw [List.getD_eq_getElem _ _ (by simpa using h)]
    simp [h]
  · rw [List.getD_eq_default _ _ (by simpa using h)]
    simp [h]

theorem getD_set_self {β : Type} (l : List β) (i : Nat) (a d : β)
    (h : i < l.length) : (l.set i a).getD i d = a := by
  rw [List.getD_eq_getElem _ _ (by simpa using h)]
  exact List.getElem_set_self _

theorem getD_set_ne {β : Type} (l : List β) {i j : Nat} (a d : β)
    (h : i ≠ j) : (l.set i a).getD j d = l.getD j d := by
  rw [List.getD_eq_getElem?_getD, List.getElem?_set_ne h,
    ← List.getD_eq_getElem?_getD]

/-- The inductive invariant of the multiplexer.  With
`k = delivered.length` (responses already routed): the delivered log is the
routed prefix of the grant log; the tracker holds, in order, the host
identifiers of the not-yet-routed grants; the device response queue holds
the next responses in grant order; the device request queue holds the
remaining granted payloads in grant order; every granted transaction is
routed, buffered in the device response queue, or pending in the device
request queue; and each host's accepted submissions are exactly its grants
so far followed by its still-queued requests. -/
structure Inv {α : Type} (cfg : Cfg) (f : α → α) (s : MuxState α) : Prop where
  hreq_len : s.hostReq.length = cfg.numHosts
  hrsp_len : s.hostRsp.length = cfg.numHosts
  tr_depth : s.tracker.depth = cfg.devRspDepth
  tr_bound : s.tracker.items.length ≤ s.tracker.depth
  deliv : s.delivered =
    (s.grants.take s.delivered.length).map (fun q => (q.1, f q.2))
  track : s.tracker.items =
    (s.grants.drop s.delivered.length).map Prod.fst
  rsp : s.devRsp.items =
    ((s.grants.drop s.delivered.length).take s.devRsp.items.length).map
      (fun q => f q.2)
  reqq : s.devReq.items =
    (s.grants.drop (s.delivered.length + s.devRsp.items.length)).map Prod.snd
  lens : s.grants.length =
    s.delivered.length + s.devRsp.items.length + s.devReq.items.length
  cons : ∀ h, (s.submitted.filter (fun q => q.1 == h)).map Prod.snd =
    (s.grants.filter (fun q => q.1 == h)).map Prod.snd ++
      (s.hostReq.getD h ⟨0, []⟩).items

/-! #### Equation lemmas for the step functions -/

theorem submitReq_accept {α : Type} {s : MuxState α} {h : Nat} (x : α)
    (hh : h < s.hostReq.length)
    (hfull : (s.hostReq.getD h ⟨0, []⟩).is_full = false) :
    submitReq s h x =
      (true,
        { s with
          hostReq := (s.hostReq.set h
            ⟨(s.hostReq.getD h ⟨0, []⟩).depth,
              (s.hostReq.getD h ⟨0, []⟩).items ++ [x]⟩)
          submitted := s.submitted ++ [(h, x)] }) := by
  unfold submitReq Fifo.offer
  rw [if_pos hh]
  simp only [hfull, Bool.false_eq_true, if_false, if_true]

theorem submitReq_reject_full {α : Type} {s : MuxState α} {h : Nat} (x : α)
    (hfull : (s.hostReq.getD h ⟨0, []⟩).is_full = true) :
    submitReq s h x = (false, s) := by
  unfold submitReq Fifo.offer
  by_cases hh : h < s.hostReq.length
  · rw [if_pos hh]
    simp only [hfull, Bool.false_eq_true, if_false, if_true]
  · rw [if_neg hh]

theorem submitReq_reject_range {α : Type} {s : MuxState α} {h : Nat} (x : α)
    (hh : ¬ h < s.hostReq.length) : submitReq s h x = (false, s) := by
  unfold submitReq
  rw [if_neg hh]

theorem requestSide_blocked {α : Type} {s : MuxState α}
    (hb : (s.devReq.is_full || s.tracker.is_full) = true) :
    requestSide s = s := by
  unfold requestSide
  simp only [hb, if_true]

theorem requestSide_idle {α : Type} {s : MuxState α}
    (hb : (s.devReq.is_full || s.tracker.is_full) = false)
    (hw : arbWinner (reqVec s) s.ptr = none) :
    requestSide s = s := by
  unfold requestSide
  simp only [hb, Bool.false_eq_true, if_false, hw]

theorem requestSide_grant {α : Type} {s : MuxState α} {w : Nat} {p : α}
    {rest : List α}
    (hb : (s.devReq.is_full || s.tracker.is_full) = false)
    (hw : arbWinner (reqVec s) s.ptr = some w)
    (hq : (s.hostReq.getD w ⟨0, []⟩).items = p :: rest) :
    requestSide s =
      { s with
        hostReq := s.hostReq.set w ⟨(s.hostReq.getD w ⟨0, []⟩).depth, rest⟩
        devReq := ⟨s.devReq.depth, s.devReq.items ++ [p]⟩
        tracker := ⟨s.tracker.depth, s.tracker.items ++ [w]⟩
        ptr := (w + 1) % s.hostReq.length
        grants := s.grants ++ [(w, p)] } := by
  unfold requestSide
  simp only [hb, Bool.false_eq_true, if_false, hw, hq]

theorem requestSide_noitem {α : Type} {s : MuxState α} {w : Nat}
    (hb : (s.devReq.is_full || s.tracker.is_full) = false)
    (hw : arbWinner (reqVec s) s.ptr = some w)
    (hq : (s.hostReq.getD w ⟨0, []⟩).items = []) :
    requestSide s = s := by
  unfold requestSide
  simp only [hb, Bool.false_eq_true, if_false, hw, hq]

theorem responseSide_deliver {α : Type} {s : MuxState α} {y : α}
    {ys : List α} {h : Nat} {hs : List Nat}
    (hd : s.devRsp.items = y :: ys) (ht : s.tracker.items = h :: hs)
    (hfull : (s.hostRsp.getD h ⟨0, []⟩).is_full = false) :
    responseSide s =
      { s with
        devRsp := ⟨s.devRsp.depth, ys⟩
        tracker := ⟨s.tracker.depth, hs⟩
        hostRsp := (s.hostRsp.set h
          ⟨(s.hostRsp.getD h ⟨0, []⟩).depth,
            (s.hostRsp.getD h ⟨0, []⟩).items ++ [y]⟩)
        delivered := s.delivered ++ [(h, y)] } := by
  unfold responseSide
  simp only [hd, ht, hfull, Bool.false_eq_true, if_false]

theorem responseSide_stall {α : Type} {s : MuxState α} {y : α}
    {ys : List α} {h : Nat} {hs : List Nat}
    (hd : s.devRsp.items = y :: ys) (ht : s.tracker.items = h :: hs)
    (hfull : (s.hostRsp.getD h ⟨0, []⟩).is_full = true) :
    responseSide s = s := by
  unfold responseSide
  simp only [hd, ht, hfull, if_true]

theorem responseSide_no_rsp {α : Type} {s : MuxState α}
    (hd : s.devRsp.items = []) : responseSide s = s := by
  unfold responseSide
  simp only [hd]

theorem responseSide_no_track {α : Type} {s : MuxState α}
    (ht : s.tracker.items = []) : responseSide s = s := by
  unfold responseSide
  simp only [ht]
  cases s.devRsp.items <;> rfl

theorem deviceStep_idle {α : Type} (f : α → α) {s : MuxState α}
    (hd : s.devReq.items = []) : deviceStep f s = s := by
  unfold deviceStep
  simp only [hd]

theorem deviceStep_full {α : Type} (f : α → α) {s : MuxState α} {x : α}
    {xs : List α} (hd : s.devReq.items = x :: xs)
    (hfull : s.devRsp.is_full = true) : deviceStep f s = s := by
  unfold deviceStep
  simp only [hd, hfull, if_true]

theorem deviceStep_move {α : Type} (f : α → α) {s : MuxState α} {x : α}
    {xs : List α} (hd : s.devReq.items = x :: xs)
    (hfull : s.devRsp.is_full = false) :
    deviceStep f s =
      { s with
        devReq := ⟨s.devReq.depth, xs⟩
        devRsp := ⟨s.devRsp.depth, s.devRsp.items ++ [f x]⟩ } := by
  unfold deviceStep
  simp only [hd, hfull, Bool.false_eq_true, if_false]

theorem tryReceive_empty {α : Type} {s : MuxState α} {h : Nat}
    (hm : (s.hostRsp.getD h ⟨0, []⟩).items = []) :
    tryReceive s h = (none, s) := by
  unfold tryReceive
  simp only [hm]

theorem tryReceive_pop {α : Type} {s : MuxState α} {h : Nat} {y : α}
    {ys : List α} (hm : (s.hostRsp.getD h ⟨0, []⟩).items = y :: ys) :
    tryReceive s h =
      (some y,
        { s with hostRsp := (s.hostRsp.set h
            ⟨(s.hostRsp.getD h ⟨0, []⟩).depth, ys⟩) }) := by
  unfold tryReceive
  simp only [hm]

theorem mkMux_eq {α : Type} {cfg : Cfg} (h1 : 1 ≤ cfg.numHosts)
    (h2 : cfg.trackerDepth = cfg.devRspDepth) :
    mkMux α cfg = some
      { hostReq := List.replicate cfg.numHosts ⟨cfg.hostReqDepth, []⟩
        hostRsp := List.replicate cfg.numHosts ⟨cfg.hostRspDepth, []⟩
        devReq := ⟨cfg.devReqDepth, []⟩
        devRsp := ⟨cfg.devRspDepth, []⟩
        tracker := ⟨cfg.trackerDepth, []⟩
        ptr := 0
        submitted := []
        grants := []
        delivered := [] } := by
  unfold mkMux
  rw [if_pos ⟨h1, h2⟩]

/-! #### Preservation of the invariant -/

theorem inv_init {α : Type} {cfg : Cfg} {f : α → α} {s₀ : MuxState α}
    (h : mkMux α cfg = some s₀) : Inv cfg f s₀ := by
  unfold mkMux at h
  by_cases hc : 1 ≤ cfg.numHosts ∧ cfg.trackerDepth = cfg.devRspDepth
  · rw [if_pos hc, Option.some_inj] at h
    subst h
    refine ⟨by simp, by simp, hc.2, by simp, by simp, by simp, by simp,
      by simp, by simp, ?_⟩
    intro h
    simp only [List.filter_nil, List.map_nil, List.nil_append]
    rw [getD_replicate]
    by_cases hh : h < cfg.numHosts
    · rw [if_pos hh]
    · rw [if_neg hh]
  · rw [if_neg hc] at h
    exact absurd h (by simp)

theorem inv_submit {α : Type} {cfg : Cfg} {f : α → α} {s : MuxState α}
    (hi : Inv cfg f s) (h : Nat) (x : α) : Inv cfg f (submitReq s h x).2 := by
  by_cases hh : h < s.hostReq.length
  · by_cases hfull : (s.hostReq.getD h ⟨0, []⟩).is_full = true
    · rw [submitReq_reject_full x hfull]
      exact hi
    · have hfull' : (s.hostReq.getD h ⟨0, []⟩).is_full = false := by
        cases hv : (s.hostReq.getD h ⟨0, []⟩).is_full
        · rfl
        · exact absurd hv hfull
      rw [submitReq_accept x hh hfull']
      refine ⟨?_, hi.hrsp_len, hi.tr_depth, hi.tr_bound, hi.deliv, hi.track,
        hi.rsp, hi.reqq, hi.lens, ?_⟩
      · simp only [List.length_set]
        exact hi.hreq_len
      · intro h'
        rw [List.filter_append, List.map_append]
        by_cases he : h' = h
        · subst he
          rw [getD_set_self _ _ _ _ hh]
          have e1 : (List.filter (fun q => q.1 == h') [(h', x)]).map
              Prod.snd = [x] := by simp
          rw [e1, hi.cons h', List.append_assoc]
        · have e1 : (List.filter (fun q => q.1 == h') [(h, x)]).map
              Prod.snd = [] := by
            simp only [List.filter_cons, List.filter_nil]
            have : (h == h') = false := by
              simp only [beq_eq_false_iff_ne, ne_eq]
              exact fun hc => he hc.symm
            rw [this]
            simp
          rw [e1, List.append_nil,
            getD_set_ne _ _ _ (fun hc => he hc.symm)]
          exact hi.cons h'
  · rw [submitReq_reject_range x hh]
    exact hi

theorem inv_receive {α : Type} {cfg : Cfg} {f : α → α} {s : MuxState α}
    (hi : Inv cfg f s) (h : Nat) : Inv cfg f (tryReceive s h).2 := by
  cases hm : (s.hostRsp.getD h ⟨0, []⟩).items with
  | nil =>
    rw [tryReceive_empty hm]
    exact hi
  | cons y ys =>
    rw [tryReceive_pop hm]
    exact ⟨hi.hreq_len, by simp only [List.length_set]; exact hi.hrsp_len,
      hi.tr_depth, hi.tr_bound, hi.deliv, hi.track, hi.rsp, hi.reqq,
      hi.lens, hi.cons⟩

theorem inv_device {α : Type} {cfg : Cfg} {f : α → α} {s : MuxState α}
    (hi : Inv cfg f s) : Inv cfg f (deviceStep f s) := by
  cases hd : s.devReq.items with
  | nil =>
    rw [deviceStep_idle f hd]
    exact hi
  | cons x xs =>
    by_cases hfull : s.devRsp.is_full = true
    · rw [deviceStep_full f hd hfull]
      exact hi
    · have hfull' : s.devRsp.is_full = false := by
        cases hv : s.devRsp.is_full
        · rfl
        · exact absurd hv hfull
      rw [deviceStep_move f hd hfull']
      have hlen1 : s.devReq.items.length = xs.length + 1 := by
        rw [hd]
        simp
      have hkm : s.delivered.length + s.devRsp.items.length <
          s.grants.length := by
        have := hi.lens
        omega
      have hdrop := List.drop_eq_getElem_cons hkm
      have hmapped : x :: xs =
          (s.grants[s.delivered.length + s.devRsp.items.length] ::
            s.grants.drop
              (s.delivered.length + s.devRsp.items.length + 1)).map
            Prod.snd := by
        rw [← hdrop, ← hi.reqq, hd]
      simp only [List.map_cons, List.cons.injEq] at hmapped
      obtain ⟨hx, hxs⟩ := hmapped
      refine ⟨hi.hreq_len, hi.hrsp_len, hi.tr_depth, hi.tr_bound, hi.deliv,
        hi.track, ?_, ?_, ?_, hi.cons⟩
      · show s.devRsp.items ++ [f x] =
          ((s.grants.drop s.delivered.length).take
            (s.devRsp.items ++ [f x]).length).map (fun q => f q.2)
        have hlen2 : (s.devRsp.items ++ [f x]).length =
            s.devRsp.items.length + 1 := by simp
        rw [hlen2, List.take_succ, List.map_append]
        congr 1
        · exact hi.rsp
        · have : (s.grants.drop s.delivered.length)[s.devRsp.items.length]? =
              some s.grants[s.delivered.length + s.devRsp.items.length] := by
            rw [List.getElem?_drop]
            exact List.getElem?_eq_getElem hkm
          rw [this]
          simp [hx]
      · show xs = (s.grants.drop
            (s.delivered.length + (s.devRsp.items ++ [f x]).length)).map
            Prod.snd
        have : s.delivered.length + (s.devRsp.items ++ [f x]).length =
            s.delivered.length + s.devRsp.items.length + 1 := by
          simp
          omega
        rw [this]
        exact hxs
      · show s.grants.length = s.delivered.length +
          (s.devRsp.items ++ [f x]).length + xs.length
        have := hi.lens
        simp only [List.length_append, List.length_cons]
        simp
        omega

theorem inv_reqside {α : Type} {cfg : Cfg} {f : α → α} {s : MuxState α}
    (hi : Inv cfg f s) : Inv cfg f (requestSide s) := by
  by_cases hb : (s.devReq.is_full || s.tracker.is_full) = true
  · rw [requestSide_blocked hb]
    exact hi
  · have hb' : (s.devReq.is_full || s.tracker.is_full) = false := by
      cases hv : (s.devReq.is_full || s.tracker.is_full)
      · rfl
      · exact absurd hv hb
    cases hw : arbWinner (reqVec s) s.ptr with
    | none =>
      rw [requestSide_idle hb' hw]
      exact hi
    | some w =>
      cases hq : (s.hostReq.getD w ⟨0, []⟩).items with
      | nil =>
        rw [requestSide_noitem hb' hw hq]
        exact hi
      | cons p rest =>
        rw [requestSide_grant hb' hw hq]
        have hwlt : w < s.hostReq.length := by
          have := arbWinner_some_lt hw
          simpa [reqVec] using this
        have htr : s.tracker.items.length < s.tracker.depth := by
          have h1 : s.tracker.is_full = false := by
            cases hv : s.tracker.is_full
            · rfl
            · rw [hv] at hb'
              simp at hb'
          unfold Fifo.is_full at h1
          simp at h1
          exact h1
        have hk : s.delivered.length ≤ s.grants.length := by
          have := hi.lens
          omega
        have hkm : s.delivered.length + s.devRsp.items.length ≤
            s.grants.length := by
          have := hi.lens
          omega
        refine ⟨?_, hi.hrsp_len, hi.tr_depth, ?_, ?_, ?_, ?_, ?_, ?_, ?_⟩
        · simp only [List.length_set]
          exact hi.hreq_len
        · show (s.tracker.items ++ [w]).length ≤ s.tracker.depth
          simp only [List.length_append, List.length_cons,
            List.length_nil]
          omega
        · show s.delivered =
            ((s.grants ++ [(w, p)]).take s.delivered.length).map
              (fun q => (q.1, f q.2))
          rw [List.take_append_of_le_length hk]
          exact hi.deliv
        · show s.tracker.items ++ [w] =
            ((s.grants ++ [(w, p)]).drop s.delivered.length).map Prod.fst
          rw [List.drop_append_of_le_length hk, List.map_append, ← hi.track]
          rfl
        · show s.devRsp.items =
            (((s.grants ++ [(w, p)]).drop s.delivered.length).take
              s.devRsp.items.length).map (fun q => f q.2)
          rw [List.drop_append_of_le_length hk,
            List.take_append_of_le_length (by
              simp only [List.length_drop]
              omega)]
          exact hi.rsp
        · show s.devReq.items ++ [p] =
            ((s.grants ++ [(w, p)]).drop
              (s.delivered.length + s.devRsp.items.length)).map Prod.snd
          rw [List.drop_append_of_le_length hkm, List.map_append, ← hi.reqq]
          rfl
        · show (s.grants ++ [(w, p)]).length = s.delivered.length +
            s.devRsp.items.length + (s.devReq.items ++ [p]).length
          have := hi.lens
          simp only [List.length_append, List.length_cons, List.length_nil]
          omega
        · intro h'
          rw [List.filter_append, List.map_append]
          by_cases he : h' = w
          · subst he
            rw [getD_set_self _ _ _ _ hwlt]
            have e1 : (List.filter (fun q => q.1 == h') [(h', p)]).map
                Prod.snd = [p] := by simp
            rw [e1, hi.cons h', hq, List.append_assoc,
              List.singleton_append]
          · have e1 : (List.filter (fun q => q.1 == h') [(w, p)]).map
                Prod.snd = [] := by
              simp only [List.filter_cons, List.filter_nil]
              have : (w == h') = false := by
                simp only [beq_eq_false_iff_ne, ne_eq]
                exact fun hc => he hc.symm
              rw [this]
              simp
            rw [e1, List.append_nil,
              getD_set_ne _ _ _ (fun hc => he hc.symm)]
            exact hi.cons h'

theorem inv_respside {α : Type} {cfg : Cfg} {f : α → α} {s : MuxState α}
    (hi : Inv cfg f s) : Inv cfg f (responseSide s) := by
  cases hd : s.devRsp.items with
  | nil =>
    rw [responseSide_no_rsp hd]
    exact hi
  | cons y ys =>
    cases ht : s.tracker.items with
    | nil =>
      rw [responseSide_no_track ht]
      exact hi
    | cons h hs =>
      by_cases hfull : (s.hostRsp.getD h ⟨0, []⟩).is_full = true
      · rw [responseSide_stall hd ht hfull]
        exact hi
      · have hfull' : (s.hostRsp.getD h ⟨0, []⟩).is_full = false := by
          cases hv : (s.hostRsp.getD h ⟨0, []⟩).is_full
          · rfl
          · exact absurd hv hfull
        rw [responseSide_deliver hd ht hfull']
        have hklt : s.delivered.length < s.grants.length := by
          by_contra hc
          have hnil : s.grants.drop s.delivered.length = [] :=
            List.drop_eq_nil_of_le (by omega)
          have := hi.track
          rw [hnil, ht] at this
          simp at this
        have hdrop := List.drop_eq_getElem_cons hklt
        have htrack : h :: hs =
            (s.grants[s.delivered.length] ::
              s.grants.drop (s.delivered.length + 1)).map Prod.fst := by
          rw [← hdrop, ← hi.track, ht]
        simp only [List.map_cons, List.cons.injEq] at htrack
        obtain ⟨hh, hhs⟩ := htrack
        have hrsp : y :: ys =
            ((s.grants[s.delivered.length] ::
              s.grants.drop (s.delivered.length + 1)).take
                (ys.length + 1)).map (fun q => f q.2) := by
          rw [← hdrop]
          have := hi.rsp
          rw [hd] at this
          simpa using this
        rw [List.take_succ_cons] at hrsp
        simp only [List.map_cons, List.cons.injEq] at hrsp
        obtain ⟨hy, hys⟩ := hrsp
        refine ⟨hi.hreq_len, ?_, hi.tr_depth, ?_, ?_, ?_, ?_, ?_, ?_,
          hi.cons⟩
        · simp only [List.length_set]
          exact hi.hrsp_len
        · show hs.length ≤ s.tracker.depth
          have := hi.tr_bound
          rw [ht] at this
          simp at this
          omega
        · show s.delivered ++ [(h, y)] =
            (s.grants.take (s.delivered ++ [(h, y)]).length).map
              (fun q => (q.1, f q.2))
          have e : (s.delivered ++ [(h, y)]).length =
              s.delivered.length + 1 := by simp
          rw [e, List.take_succ, List.getElem?_eq_getElem hklt,
            List.map_append, ← hi.deliv]
          simp [hh, hy]
        · show hs = (s.grants.drop (s.delivered ++ [(h, y)]).length).map
            Prod.fst
          have e : (s.delivered ++ [(h, y)]).length =
              s.delivered.length + 1 := by simp
          rw [e]
          exact hhs
        · show ys = ((s.grants.drop (s.delivered ++ [(h, y)]).length).take
            ys.length).map (fun q => f q.2)
          have e : (s.delivered ++ [(h, y)]).length =
              s.delivered.length + 1 := by simp
          rw [e]
          exact hys
        · show s.devReq.items = (s.grants.drop
            ((s.delivered ++ [(h, y)]).length + ys.length)).map Prod.snd
          have e : (s.delivered ++ [(h, y)]).length + ys.length =
              s.delivered.length + s.devRsp.items.length := by
            rw [hd]
            simp
            omega
          rw [e]
          exact hi.reqq
        · show s.grants.length = (s.delivered ++ [(h, y)]).length +
            ys.length + s.devReq.items.length
          have := hi.lens
          rw [hd] at this
          simp only [List.length_append, List.length_cons,
            List.length_nil] at this ⊢
          omega

theorem inv_reachable {α : Type} {cfg : Cfg} {f : α → α} {s : MuxState α}
    (hr : Reachable f cfg s) : Inv cfg f s := by
  induction hr with
  | init s₀ h => exact inv_init h
  | step s t _ hstep ih =>
    cases hstep with
    | submit h x _ => exact inv_submit ih h x
    | advance _ => exact inv_respside (inv_reqside ih)
    | device _ => exact inv_device ih
    | receive h _ => exact inv_receive ih h

/-! ### Concrete states used by the witnesses -/

/-- A 2-host configuration with all depths 1. -/
def muxCfg2 : Cfg := ⟨2, 1, 1, 1, 1, 1⟩

/-- The initial state of `muxCfg2`. -/
def muxInit2 : MuxState Nat :=
  ⟨[⟨1, []⟩, ⟨1, []⟩], [⟨1, []⟩, ⟨1, []⟩], ⟨1, []⟩, ⟨1, []⟩, ⟨1, []⟩, 0,
    [], [], []⟩

/-- A 1-host configuration whose host request queue has depth 0. -/
def muxCfg1 : Cfg := ⟨1, 0, 1, 1, 1, 1⟩

/-- The initial state of `muxCfg1`: its single host request queue is
permanently full (depth 0). -/
def sFullHost : MuxState Nat :=
  ⟨[⟨0, []⟩], [⟨1, []⟩], ⟨1, []⟩, ⟨1, []⟩, ⟨1, []⟩, 0, [], [], []⟩

/-- A state whose device request queue is full (depth 0). -/
def sFullDev : MuxState Nat :=
  ⟨[⟨1, [3]⟩], [⟨1, []⟩], ⟨0, []⟩, ⟨1, []⟩, ⟨1, []⟩, 0, [(0, 3)], [], []⟩

/-- A state in which a response is pending for host 0 but host 0's inbound
queue is full (depth 0). -/
def sStall : MuxState Nat :=
  ⟨[⟨1, []⟩], [⟨0, []⟩], ⟨1, []⟩, ⟨1, [9]⟩, ⟨1, [0]⟩, 0, [(0, 9)],
    [(0, 9)], []⟩

/-! #### Claim C2: tracker length invariant -/

/-- C2.  In every reachable state of the multiplexer, the Grant Tracker's
length equals the number of requests accepted downstream (`grants`) minus
the number of responses already routed back (`delivered`), and this length
never exceeds the device response-queue depth. -/
theorem tracker_length_inv {α : Type} {f : α → α} {cfg : Cfg}
    {s : MuxState α} (hr : Reachable f cfg s) :
    s.tracker.items.length + s.delivered.length = s.grants.length ∧
    s.tracker.items.length ≤ cfg.devRspDepth := by
  have hi := inv_reachable hr
  constructor
  · have hlen : s.tracker.items.length =
        (s.grants.drop s.delivered.length).length := by
      rw [hi.track]
      simp
    rw [List.length_drop] at hlen
    have hk : s.delivered.length ≤ s.grants.length := by
      have := hi.lens
      omega
    omega
  · have := hi.tr_bound
    rw [hi.tr_depth] at this
    exact this

/-- Witness for C2 at the initial state of a concrete configuration. -/
theorem tracker_length_inv_witness :
    muxInit2.tracker.items.length + muxInit2.delivered.length =
      muxInit2.grants.length ∧
    muxInit2.tracker.items.length ≤ muxCfg2.devRspDepth :=
  @tracker_length_inv Nat id muxCfg2 muxInit2
    (Reachable.init muxInit2 (by decide))

/-! #### Claim C3: per-host FIFO response ordering -/

/-- C3.  In every reachable state, for every host, the responses delivered
to that host so far are exactly an initial segment, in order, of the
responses to that host's granted requests — responses reach a host in the
order the host's requests were granted, however other hosts' transactions
interleave. -/
theorem per_host_fifo_order {α : Type} {f : α → α} {cfg : Cfg}
    {s : MuxState α} (hr : Reachable f cfg s) (h : Nat) :
    ∃ t, (s.grants.filter (fun q => q.1 == h)).map (fun q => f q.2) =
      (s.delivered.filter (fun q => q.1 == h)).map Prod.snd ++ t := by
  have hi := inv_reachable hr
  have hdeliv := hi.deliv
  set k := s.delivered.length with hkdef
  refine ⟨((s.grants.drop k).filter
    (fun q => q.1 == h)).map (fun q => f q.2), ?_⟩
  conv_lhs => rw [← List.take_append_drop k s.grants]
  rw [List.filter_append, List.map_append]
  congr 1
  rw [hdeliv, List.filter_map, List.map_map]
  rfl

/-- Witness for C3 at the initial state of a concrete configuration. -/
theorem per_host_fifo_order_witness :
    ∃ t, (muxInit2.grants.filter (fun q => q.1 == 0)).map
        (fun q => id q.2) =
      (muxInit2.delivered.filter (fun q => q.1 == 0)).map Prod.snd ++ t :=
  @per_host_fifo_order Nat id muxCfg2 muxInit2
    (Reachable.init muxInit2 (by decide)) 0

/-! #### Claim C4: backpressure correctness -/

/-- C4.  `submit_request` never returns true when the host's local outbound
queue is full; when the device request queue is full the arbiter grants no
host regardless of the request vector; rejection is a pure signal with no
side effect; and no accepted request is silently dropped: in every
reachable state each host's accepted submissions are exactly its granted
requests followed by its still-queued requests, and every granted request
is delivered, buffered in the device response queue, or pending in the
device request queue. -/
theorem backpressure_correct {α : Type} (f : α → α) (cfg : Cfg) :
    (∀ (s : MuxState α) (h : Nat) (x : α),
        (s.hostReq.getD h ⟨0, []⟩).is_full = true →
        (submitReq s h x).1 = false) ∧
    (∀ s : MuxState α, s.devReq.is_full = true →
        requestSide s = s ∧ (requestSide s).grants = s.grants) ∧
    (∀ (s : MuxState α) (h : Nat) (x : α),
        (submitReq s h x).1 = false → (submitReq s h x).2 = s) ∧
    (∀ s : MuxState α, Reachable f cfg s →
        (∀ h, (s.submitted.filter (fun q => q.1 == h)).map Prod.snd =
          (s.grants.filter (fun q => q.1 == h)).map Prod.snd ++
            (s.hostReq.getD h ⟨0, []⟩).items) ∧
        s.grants.length = s.delivered.length + s.devRsp.items.length +
          s.devReq.items.length) := by
  refine ⟨?_, ?_, ?_, ?_⟩
  · intro s h x hfull
    rw [submitReq_reject_full x hfull]
  · intro s hfull
    have hb : (s.devReq.is_full || s.tracker.is_full) = true := by
      rw [hfull]
      exact Bool.true_or _
    have e := requestSide_blocked hb
    exact ⟨e, by rw [e]⟩
  · intro s h x hrej
    by_cases hh : h < s.hostReq.length
    · by_cases hfull : (s.hostReq.getD h ⟨0, []⟩).is_full = true
      · rw [submitReq_reject_full x hfull]
      · have hfull' : (s.hostReq.getD h ⟨0, []⟩).is_full = false := by
          cases hv : (s.hostReq.getD h ⟨0, []⟩).is_full
          · rfl
          · exact absurd hv hfull
        rw [submitReq_accept x hh hfull'] at hrej
        exact absurd hrej (by simp)
    · rw [submitReq_reject_range x hh]
  · intro s hr
    have hi := inv_reachable hr
    exact ⟨hi.cons, hi.lens⟩

/-- Witness for C4 at concrete inputs. -/
theorem backpressure_correct_witness :
    (submitReq sFullHost 0 7).1 = false ∧
    (requestSide sFullDev = sFullDev ∧
      (requestSide sFullDev).grants = sFullDev.grants) ∧
    (submitReq sFullHost 5 7).2 = sFullHost ∧
    ((sFullHost.submitted.filter (fun q => q.1 == 0)).map Prod.snd =
      (sFullHost.grants.filter (fun q => q.1 == 0)).map Prod.snd ++
        (sFullHost.hostReq.getD 0 ⟨0, []⟩).items ∧
      sFullHost.grants.length = sFullHost.delivered.length +
        sFullHost.devRsp.items.length + sFullHost.devReq.items.length) :=
  ⟨(backpressure_correct (α := Nat) id muxCfg1).1 sFullHost 0 7 (by decide),
   (backpressure_correct (α := Nat) id muxCfg1).2.1 sFullDev (by decide),
   (backpressure_correct (α := Nat) id muxCfg1).2.2.1 sFullHost 5 7
     (by decide),
   ⟨((backpressure_correct (α := Nat) id muxCfg1).2.2.2 sFullHost
       (Reachable.init sFullHost (by decide))).1 0,
    ((backpressure_correct (α := Nat) id muxCfg1).2.2.2 sFullHost
       (Reachable.init sFullHost (by decide))).2⟩⟩

/-! #### Claim C7: full destination queue stalls the response path -/

/-- C7.  When the device response channel and the tracker are non-empty but
the destination host's inbound response queue is full, the Response Router
stalls: the device response channel, the tracker, the delivery log and
every host's inbound queue are left unchanged — no later response is
delivered ahead of the stalled one. -/
theorem router_stall {α : Type} (s : MuxState α) (y : α) (ys : List α)
    (h : Nat) (hs : List Nat)
    (hd : s.devRsp.items = y :: ys) (ht : s.tracker.items = h :: hs)
    (hfull : (s.hostRsp.getD h ⟨0, []⟩).is_full = true) :
    responseSide s = s ∧
    (responseSide s).devRsp = s.devRsp ∧
    (responseSide s).tracker = s.tracker ∧
    (responseSide s).delivered = s.delivered ∧
    ∀ h', (responseSide s).hostRsp.getD h' ⟨0, []⟩ =
      s.hostRsp.getD h' ⟨0, []⟩ := by
  have e := responseSide_stall hd ht hfull
  exact ⟨e, by rw [e], by rw [e], by rw [e], fun h' => by rw [e]⟩

/-- Witness for C7 at a concrete stalled state. -/
theorem router_stall_witness :
    responseSide sStall = sStall ∧
    (responseSide sStall).hostRsp.getD 0 ⟨0, []⟩ =
      sStall.hostRsp.getD 0 ⟨0, []⟩ :=
  ⟨(router_stall sStall 9 [] 0 [] rfl rfl (by decide)).1,
   (router_stall sStall 9 [] 0 [] rfl rfl (by decide)).2.2.2.2 0⟩

/-! #### Claim C10: parameterised construction -/

/-- C10.  The multiplexer is constructible for every number of hosts
N ≥ 1 (given the §4.3 capacity coupling of tracker depth and device
response-queue depth), and the number of hosts and every buffer depth are
taken from the construction parameters, not hard-coded. -/
theorem mux_constructible (α : Type) (cfg : Cfg) (h1 : 1 ≤ cfg.numHosts)
    (h2 : cfg.trackerDepth = cfg.devRspDepth) :
    ∃ s : MuxState α, mkMux α cfg = some s ∧
      s.hostReq.length = cfg.numHosts ∧
      s.hostRsp.length = cfg.numHosts ∧
      (∀ i, i < cfg.numHosts →
        (s.hostReq.getD i ⟨0, []⟩).depth = cfg.hostReqDepth ∧
        (s.hostRsp.getD i ⟨0, []⟩).depth = cfg.hostRspDepth) ∧
      s.devReq.depth = cfg.devReqDepth ∧
      s.devRsp.depth = cfg.devRspDepth ∧
      s.tracker.depth = cfg.trackerDepth := by
  refine ⟨_, mkMux_eq h1 h2, by simp, by simp, ?_, rfl, rfl, rfl⟩
  intro i hi
  constructor <;> rw [getD_replicate, if_pos hi]

/-- Witness for C10 at a concrete configuration. -/
theorem mux_constructible_witness :
    ∃ s : MuxState Nat, mkMux Nat ⟨3, 4, 5, 6, 7, 7⟩ = some s ∧
      s.hostReq.length = 3 ∧
      s.hostRsp.length = 3 ∧
      (∀ i, i < 3 →
        (s.hostReq.getD i ⟨0, []⟩).depth = 4 ∧
        (s.hostRsp.getD i ⟨0, []⟩).depth = 5) ∧
      s.devReq.depth = 6 ∧
      s.devRsp.depth = 7 ∧
      s.tracker.depth = 7 :=
  mux_constructible Nat ⟨3, 4, 5, 6, 7, 7⟩ (by decide) (by decide)

end Azadi
